import Mathlib

/-!
# Verification of the adocker streaming-decode pipeline and exit stack

This file gives a shallow embedding of the core of the `adocker` repository:

* `adocker/utils/chunked_stream.py` — `ChunkedBytesStream`, `SplitStream`,
  `JsonStream` (the chunk reader / framer / object decoder pipeline);
* `adocker/utils/streamed_response.py` — `StreamableResponse`
  (the lazy result sequence);
* `adocker/utils/contextlib.py` — `AsyncExitStack`;
* `adocker/errors.py` — `ChunkedStreamingError`.

Byte chunks are modelled after text decoding (`ChunkedStream.__anext__`
decodes with `errors='replace'`, so decoding never fails and the framing
layer only ever sees text); buffers and chunks are `List Char`.
Python exceptions are modelled as values: an abstract payload type `ε`
stands for the identity of an underlying exception object, and the
repository's `ChunkedStreamingError` (with its `__cause__`) is a dedicated
constructor.

The JSON parser used by `JsonStream` is Python's `json.JSONDecoder`
(standard library, outside this repository).  It is modelled here on a
faithful subset of JSON: `null`, `true`, `false`, integer literals
(Python's `NUMBER_RE` integer part `-?(0|[1-9][0-9]*)`, without the
fraction/exponent parts), strings with the `\"` and `\\` escapes, arrays
and objects.  Like CPython's `scan_once`, the parser does not skip leading
whitespace; whitespace handling is done by its callers
(`JsonStream.splitter` strips the buffer, `JSONDecoder.decode` skips
whitespace on both sides).
-/

/-- Python `json` whitespace (`json.decoder.WHITESPACE`, i.e. `[ \t\n\r]`);
`str.strip()` agrees with this set on the ASCII text of JSON framing. -/
def isWsChar (c : Char) : Bool :=
  c = ' ' || c = '\t' || c = '\n' || c = '\r'

/-- Skip leading whitespace (`WHITESPACE.match(s, i).end()`). -/
def skipWs (s : List Char) : List Char := s.dropWhile isWsChar

/-- Remove trailing whitespace. -/
def rstripWs (s : List Char) : List Char := (s.reverse.dropWhile isWsChar).reverse

/-- Python `str.strip()`: remove whitespace at both ends. -/
def pyStrip (s : List Char) : List Char := rstripWs (skipWs s)

/-- JSON values of the modelled subset (Python decodes objects to `dict`,
here association lists in document order; numbers in the subset are
integers). -/
inductive Json where
  | null : Json
  | bool (b : Bool) : Json
  | num (n : Int) : Json
  | str (s : List Char) : Json
  | arr (elems : List Json) : Json
  | obj (members : List (List Char × Json)) : Json

mutual

/-- Decidable equality for `Json` (hand-rolled: `deriving` does not handle
the nested `List` occurrences). -/
def Json.decEq : (a b : Json) → Decidable (a = b)
  | .null, .null => .isTrue rfl
  | .null, .bool _ => .isFalse (fun h => nomatch h)
  | .null, .num _ => .isFalse (fun h => nomatch h)
  | .null, .str _ => .isFalse (fun h => nomatch h)
  | .null, .arr _ => .isFalse (fun h => nomatch h)
  | .null, .obj _ => .isFalse (fun h => nomatch h)
  | .bool _, .null => .isFalse (fun h => nomatch h)
  | .bool a, .bool b =>
    if h : a = b then .isTrue (by rw [h]) else .isFalse (fun hh => h (by injection hh))
  | .bool _, .num _ => .isFalse (fun h => nomatch h)
  | .bool _, .str _ => .isFalse (fun h => nomatch h)
  | .bool _, .arr _ => .isFalse (fun h => nomatch h)
  | .bool _, .obj _ => .isFalse (fun h => nomatch h)
  | .num _, .null => .isFalse (fun h => nomatch h)
  | .num _, .bool _ => .isFalse (fun h => nomatch h)
  | .num a, .num b =>
    if h : a = b then .isTrue (by rw [h]) else .isFalse (fun hh => h (by injection hh))
  | .num _, .str _ => .isFalse (fun h => nomatch h)
  | .num _, .arr _ => .isFalse (fun h => nomatch h)
  | .num _, .obj _ => .isFalse (fun h => nomatch h)
  | .str _, .null => .isFalse (fun h => nomatch h)
  | .str _, .bool _ => .isFalse (fun h => nomatch h)
  | .str _, .num _ => .isFalse (fun h => nomatch h)
  | .str a, .str b =>
    if h : a = b then .isTrue (by rw [h]) else .isFalse (fun hh => h (by injection hh))
  | .str _, .arr _ => .isFalse (fun h => nomatch h)
  | .str _, .obj _ => .isFalse (fun h => nomatch h)
  | .arr _, .null => .isFalse (fun h => nomatch h)
  | .arr _, .bool _ => .isFalse (fun h => nomatch h)
  | .arr _, .num _ => .isFalse (fun h => nomatch h)
  | .arr _, .str _ => .isFalse (fun h => nomatch h)
  | .arr a, .arr b =>
    match Json.decEqList a b with
    | .isTrue h => .isTrue (by rw [h])
    | .isFalse h => .isFalse (fun hh => h (by injection hh))
  | .arr _, .obj _ => .isFalse (fun h => nomatch h)
  | .obj _, .null => .isFalse (fun h => nomatch h)
  | .obj _, .bool _ => .isFalse (fun h => nomatch h)
  | .obj _, .num _ => .isFalse (fun h => nomatch h)
  | .obj _, .str _ => .isFalse (fun h => nomatch h)
  | .obj _, .arr _ => .isFalse (fun h => nomatch h)
  | .obj a, .obj b =>
    match Json.decEqMembers a b with
    | .isTrue h => .isTrue (by rw [h])
    | .isFalse h => .isFalse (fun hh => h (by injection hh))

/-- Decidable equality for lists of `Json`. -/
def Json.decEqList : (as bs : List Json) → Decidable (as = bs)
  | [], [] => .isTrue rfl
  | [], _ :: _ => .isFalse (fun h => nomatch h)
  | _ :: _, [] => .isFalse (fun h => nomatch h)
  | a :: as, b :: bs =>
    match Json.decEq a b with
    | .isFalse h => .isFalse (fun hh => h (by injection hh))
    | .isTrue h1 =>
      match Json.decEqList as bs with
      | .isTrue h2 => .isTrue (by rw [h1, h2])
      | .isFalse h2 => .isFalse (fun hh => h2 (by injection hh))

/-- Decidable equality for object member lists. -/
def Json.decEqMembers :
    (as bs : List (List Char × Json)) → Decidable (as = bs)
  | [], [] => .isTrue rfl
  | [], _ :: _ => .isFalse (fun h => nomatch h)
  | _ :: _, [] => .isFalse (fun h => nomatch h)
  | (k1, v1) :: as, (k2, v2) :: bs =>
    if hk : k1 = k2 then
      match Json.decEq v1 v2 with
      | .isFalse h =>
        .isFalse (fun hh => by
          injection hh with h1 h2
          exact h (congrArg Prod.snd h1))
      | .isTrue h1 =>
        match Json.decEqMembers as bs with
        | .isTrue h2 => .isTrue (by rw [hk, h1, h2])
        | .isFalse h2 => .isFalse (fun hh => h2 (by injection hh))
    else
      .isFalse (fun hh => by
        injection hh with h1 h2
        exact hk (congrArg Prod.fst h1))

end

instance : DecidableEq Json := Json.decEq

deriving instance DecidableEq for Except

/-- Numeric value of a list of decimal digits. -/
def natOfDigits (ds : List Char) : Nat :=
  ds.foldl (fun acc c => acc * 10 + (c.toNat - '0'.toNat)) 0

/-- Integer part of Python's `NUMBER_RE`: `0|[1-9][0-9]*` with maximal
munch of the digits (a leading `'0'` matches exactly `"0"`). -/
def parseIntPart : List Char → Option (Nat × List Char)
  | '0' :: r => some (0, r)
  | s =>
    let ds := s.takeWhile Char.isDigit
    if ds = [] then none else some (natOfDigits ds, s.drop ds.length)

/-- Python `py_scanstring`, called just after the opening quote, restricted
to the `\"` and `\\` escapes of the modelled subset (other escapes fail). -/
def parseStr : List Char → Option (List Char × List Char)
  | [] => none
  | '"' :: r => some ([], r)
  | '\\' :: '"' :: r => (parseStr r).map (fun p => ('"' :: p.1, p.2))
  | '\\' :: '\\' :: r => (parseStr r).map (fun p => ('\\' :: p.1, p.2))
  | '\\' :: _ => none
  | c :: r => (parseStr r).map (fun p => (c :: p.1, p.2))

mutual

/-- Python `scan_once`: dispatch on the first character exactly as
CPython's `py_make_scanner` does (`"`, `{`, `[`, then the literals
`null` / `true` / `false`, then a number).  No leading whitespace is
skipped.  `fuel` only bounds the recursion depth; the canonical entry
point `parseValue` supplies enough fuel for its input. -/
def parseVal : Nat → List Char → Option (Json × List Char)
  | 0, _ => none
  | fuel + 1, s =>
    match s with
    | '"' :: r => (parseStr r).map (fun p => (Json.str p.1, p.2))
    | '{' :: r => (parseMembers fuel r).map (fun p => (Json.obj p.1, p.2))
    | '[' :: r => (parseElems fuel r).map (fun p => (Json.arr p.1, p.2))
    | '-' :: r => (parseIntPart r).map (fun p => (Json.num (-(p.1 : Int)), p.2))
    | s' =>
      if ("null".toList).isPrefixOf s' then some (Json.null, s'.drop 4)
      else if ("true".toList).isPrefixOf s' then some (Json.bool true, s'.drop 4)
      else if ("false".toList).isPrefixOf s' then some (Json.bool false, s'.drop 5)
      else (parseIntPart s').map (fun p => (Json.num (p.1 : Int), p.2))

/-- Python `JSONArray`, entered just after `'['`: optional whitespace,
empty-array check, then a comma-separated element loop. -/
def parseElems : Nat → List Char → Option (List Json × List Char)
  | 0, _ => none
  | fuel + 1, s =>
    match skipWs s with
    | ']' :: r => some ([], r)
    | s1 => parseElemsLoop fuel s1

/-- The element loop of `JSONArray`: a value, then `','` (continue) or
`']'` (done), skipping whitespace around the delimiters. -/
def parseElemsLoop : Nat → List Char → Option (List Json × List Char)
  | 0, _ => none
  | fuel + 1, s =>
    match parseVal fuel s with
    | none => none
    | some (v, r) =>
      match skipWs r with
      | ']' :: r2 => some ([v], r2)
      | ',' :: r2 =>
        (parseElemsLoop fuel (skipWs r2)).map (fun p => (v :: p.1, p.2))
      | _ => none

/-- Python `JSONObject`, entered just after `'{'`: optional whitespace,
empty-object check, then the member loop (which starts after the opening
quote of the first key). -/
def parseMembers : Nat → List Char → Option (List (List Char × Json) × List Char)
  | 0, _ => none
  | fuel + 1, s =>
    match skipWs s with
    | '}' :: r => some ([], r)
    | '"' :: r => parseMembersLoop fuel r
    | _ => none

/-- The member loop of `JSONObject`: key string (opening quote already
consumed), `':'`, value, then `'}'` (done) or `','` followed by the next
key's opening quote. -/
def parseMembersLoop : Nat → List Char → Option (List (List Char × Json) × List Char)
  | 0, _ => none
  | fuel + 1, s =>
    match parseStr s with
    | none => none
    | some (k, r1) =>
      match skipWs r1 with
      | ':' :: r3 =>
        match parseVal fuel (skipWs r3) with
        | none => none
        | some (v, r4) =>
          match skipWs r4 with
          | '}' :: r6 => some ([(k, v)], r6)
          | ',' :: r6 =>
            match skipWs r6 with
            | '"' :: r7 =>
              (parseMembersLoop fuel r7).map (fun p => ((k, v) :: p.1, p.2))
            | _ => none
          | _ => none
      | _ => none

end

/-- `JSONDecoder.raw_decode` on the modelled subset: parse one value
starting at the head of `s`, returning the value and the unconsumed
suffix.  The fuel `2 * s.length + 2` strictly dominates the recursion
depth (each unit of fuel spent is preceded by at least one consumed
character, alternating between value and loop ticks). -/
def parseValue (s : List Char) : Option (Json × List Char) :=
  parseVal (2 * s.length + 2) s

/-- `JsonStream.splitter` (chunked_stream.py:152-164): strip the buffer,
`raw_decode` one document, and return it with the remainder after skipping
the whitespace that follows the parsed prefix; any `ValueError` (including
an incomplete document) yields `None`. -/
def jsonSplitter (buffer : List Char) : Option (Json × List Char) :=
  match parseValue (pyStrip buffer) with
  | some (v, rest) => some (v, skipWs rest)
  | none => none

/-- `JsonStream.decoder` (chunked_stream.py:166-167), i.e. Python's
`JSONDecoder.decode`: skip leading whitespace, `raw_decode`, and require
that only whitespace remains.  A failure is a `ValueError` carrying the
offending text; the model keeps that text as the exception payload so that
cause preservation is observable. -/
def jsonDecodeE (s : List Char) : Except (List Char) Json :=
  match parseValue (skipWs s) with
  | some (v, rest) => if skipWs rest = [] then Except.ok v else Except.error s
  | none => Except.error s

/-- The document text `\x7b"a":1\x7d` as characters (string literals do
not spell braces in this file; object documents are given as char
lists). -/
def objA1 : List Char := ['{', '"', 'a', '"', ':', '1', '}']

/-- The document text `\x7b"b":2\x7d`. -/
def objB2 : List Char := ['{', '"', 'b', '"', ':', '2', '}']

/-- The malformed document prefix `\x7b"a":` (the spec's own example of a
bad tail). -/
def badTail : List Char := ['{', '"', 'a', '"', ':']

example : parseValue "12".toList = some (Json.num 12, []) := by decide
example : parseValue "1".toList = some (Json.num 1, []) := by decide
example : jsonSplitter ((' ' :: objA1) ++ [' ', 'x']) =
    some (Json.obj [(['a'], Json.num 1)], ['x']) := by decide
example : jsonSplitter badTail = none := by decide
example : jsonSplitter [] = none := by decide
example : jsonDecodeE " true ".toList = Except.ok (Json.bool true) := by decide
example : parseValue "[1, []]".toList = some (Json.arr [Json.num 1, Json.arr []], []) := by
  decide

/-!
## Error model and the chunk reader

`adocker/errors.py` defines `ChunkedStreamingError` and the code of
`chunked_stream.py` raises it with `raise ChunkedStreamingError() from e`,
so the model keeps the cause.  `PyError.raw e` stands for any other
exception object `e` propagating unwrapped; the payload type `ε` is the
identity of an underlying exception (an `aiohttp.ClientPayloadError`, a
`ValueError` from the JSON decoder, ...).
-/

/-- Exceptions that can escape the streaming pipeline. -/
inductive PyError (ε : Type) where
  | chunkedStreamingError (cause : Option ε) : PyError ε
  | raw (e : ε) : PyError ε
deriving DecidableEq

/-- One read event offered by the transport
(`aiohttp` `response.content.readchunk()`): a piece of a chunk together
with the `chunk_complete` flag, or a payload failure mid-read
(`aiohttp.ClientPayloadError`). -/
inductive RawRead (ε : Type) where
  | part (data : List Char) (complete : Bool) : RawRead ε
  | fail (e : ε) : RawRead ε
deriving DecidableEq

/-- A transport whose every chunk arrives whole (one complete `readchunk`
per chunk) and that never fails: the shape used by the functional claims. -/
def pureTransport {ε : Type} (chunks : List (List Char)) : List (RawRead ε) :=
  chunks.map (fun c => RawRead.part c true)

/-- The `readchunk` loop of `ChunkedBytesStream.__anext__`
(chunked_stream.py:64-72): accumulate data until `chunk_complete`; a
`ClientPayloadError` is wrapped as `ChunkedStreamingError` with the payload
error as cause.  The transport is a list of pending read events; an
exhausted transport behaves like `readchunk` returning `(b'', True)`.
`fuel` bounds the loop; the wrapper passes the transport length, which
suffices because every iteration consumes one event. -/
def chunkNextAux {ε : Type} :
    Nat → List Char → List (RawRead ε) →
      Except (PyError ε) (List Char) × List (RawRead ε)
  | _, acc, [] => (Except.ok acc, [])
  | _, _acc, .fail e :: tr => (Except.error (.chunkedStreamingError (some e)), tr)
  | 0, acc, tr => (Except.ok acc, tr)
  | fuel + 1, acc, .part b complete :: tr =>
    if complete then (Except.ok (acc ++ b), tr)
    else chunkNextAux fuel (acc ++ b) tr

/-- `ChunkedBytesStream.__anext__` below the `at_eof` test, combined with
the text decoding of `ChunkedStream.__anext__` (decoding with
`errors='replace'` never fails, so it is the identity at this level). -/
def chunkNext {ε : Type} (tr : List (RawRead ε)) :
    Except (PyError ε) (List Char) × List (RawRead ε) :=
  chunkNextAux tr.length [] tr

/-!
## The framer: `SplitStream.__anext__`

`SplitStream` keeps an accumulating text buffer.  Each `__anext__` call
loops: try `splitter` on the buffer (a frame found is returned and the
remainder kept); at end of stream decode the whole remaining buffer once
as the tail, wrapping a decode failure as `ChunkedStreamingError from e`;
otherwise read one more chunk (whose errors propagate unchanged) and
retry.  `splitStep` renders one `__anext__` call; `runSplitStream` below
renders a whole iteration.
-/

/-- Outcome of one `__anext__` call: an item, `StopAsyncIteration`, or a
raised exception. -/
inductive StepOut (ε α : Type) where
  | item (a : α) : StepOut ε α
  | stop : StepOut ε α
  | err (e : PyError ε) : StepOut ε α
deriving DecidableEq

/-- One call of `SplitStream.__anext__` (chunked_stream.py:122-141), with
state `(transport, buffer)`.  `split` is the subclass `splitter`, `dec`
the subclass `decoder` (raising exceptions of payload `ε`).  The fuel only
bounds the read-append-retry loop; the wrapper supplies
`transport.length + 1`, enough since each iteration consumes at least one
transport event. -/
def splitStepAux {ε α : Type} (split : List Char → Option (α × List Char))
    (dec : List Char → Except ε α) :
    Nat → List (RawRead ε) → List Char →
      StepOut ε α × (List (RawRead ε) × List Char)
  | 0, tr, buf => (.stop, (tr, buf))
  | fuel + 1, tr, buf =>
    match split buf with
    | some (a, rest) => (.item a, (tr, rest))
    | none =>
      match tr with
      | [] =>
        if buf = [] then (.stop, ([], []))
        else
          match dec buf with
          | .ok a => (.item a, ([], []))
          | .error e => (.err (.chunkedStreamingError (some e)), ([], []))
      | _ :: _ =>
        match chunkNext tr with
        | (.error e, tr') => (.err e, (tr', buf))
        | (.ok c, tr') => splitStepAux split dec fuel tr' (buf ++ c)

/-- One call of `SplitStream.__anext__` on state `(transport, buffer)`. -/
def splitStep {ε α : Type} (split : List Char → Option (α × List Char))
    (dec : List Char → Except ε α)
    (st : List (RawRead ε) × List Char) :
    StepOut ε α × (List (RawRead ε) × List Char) :=
  splitStepAux split dec (st.1.length + 1) st.1 st.2

/-!
## Aggregate view of a full iteration

Repeatedly awaiting `SplitStream.__anext__` until `StopAsyncIteration`
factors, for a failure-free transport, into: append each chunk to the
buffer, repeatedly apply `splitter` until it returns `None` (the
`while True` inner loop), and at end of stream decode any non-empty
remaining buffer once as the tail.  `drain` is the inner splitter loop and
`runSplit` the chunk recursion; this is the behaviour of the source for
every splitter that finds no frame in the empty buffer and in the
remainders it returns (in particular `JsonStream.splitter`, whose
remainder never itself contains a complete document after a successful
split of the same buffer).
-/

/-- The inner `while True` splitter loop: apply `split` repeatedly,
collecting the extracted frames and the final remainder.  The fuel is an
upper bound on the number of successful splits; the wrapper passes
`buffer.length + 1`, which suffices whenever each successful split
consumes at least one character. -/
def drainAux {α : Type} (split : List Char → Option (α × List Char)) :
    Nat → List Char → List α × List Char
  | 0, buf => ([], buf)
  | fuel + 1, buf =>
    match split buf with
    | none => ([], buf)
    | some (a, rest) =>
      let p := drainAux split fuel rest
      (a :: p.1, p.2)

/-- Apply the splitter until no further frame is found. -/
def drain {α : Type} (split : List Char → Option (α × List Char))
    (buf : List Char) : List α × List Char :=
  drainAux split (buf.length + 1) buf

/-- Result of iterating a stream to its end: the yielded items, and
whether iteration ended with a `ChunkedStreamingError` from the tail
decode instead of a clean `StopAsyncIteration`. -/
structure RunOut (α : Type) where
  items : List α
  tailError : Bool
deriving DecidableEq

/-- Full iteration of `SplitStream` over the text chunks of a
failure-free transport, starting from buffer `buf`. -/
def runSplit {ε α : Type} (split : List Char → Option (α × List Char))
    (dec : List Char → Except ε α) :
    List (List Char) → List Char → RunOut α
  | [], buf =>
    let p := drain split buf
    if p.2 = [] then ⟨p.1, false⟩
    else
      match dec p.2 with
      | .ok a => ⟨p.1 ++ [a], false⟩
      | .error _ => ⟨p.1, true⟩
  | c :: cs, buf =>
    let p := drain split (buf ++ c)
    let r := runSplit split dec cs p.2
    ⟨p.1 ++ r.items, r.tailError⟩

/-- Full iteration of a fresh `SplitStream` (empty initial buffer) over
the given text chunks. -/
def runSplitStream {ε α : Type} (split : List Char → Option (α × List Char))
    (dec : List Char → Except ε α) (chunks : List (List Char)) : RunOut α :=
  runSplit split dec chunks []

example :
    runSplitStream jsonSplitter jsonDecodeE [objA1, objB2] =
    ⟨[Json.obj [(['a'], Json.num 1)], Json.obj [(['b'], Json.num 2)]],
      false⟩ := by decide
example :
    runSplitStream jsonSplitter jsonDecodeE [objA1.take 4, objA1.drop 4] =
    ⟨[Json.obj [(['a'], Json.num 1)]], false⟩ := by decide
example :
    runSplitStream jsonSplitter jsonDecodeE [badTail] =
    ⟨[], true⟩ := by decide
example :
    splitStep jsonSplitter jsonDecodeE ([RawRead.fail ['x']], []) =
    (.err (.chunkedStreamingError (some ['x'])), ([], [])) := by decide

/-!
## Chunk-boundary behaviour of `JsonStream` (claim C1)

`SplitStream` buffers arriving text and re-applies the splitter, so its
output depends only weakly on where the chunk boundaries fall.  It is not
fully independent of them: `jsonSplitter` eagerly extracts any complete
leading document, so a bare number can be re-split at a chunk boundary
(`"12"` in one chunk is one document, `"1"`/`"2"` in two chunks is two),
and the buffer strip inside the splitter can drop whitespace belonging to
a straddling document.  Independence holds for document lists that are
*self-delimiting* in the sense of `GoodDocs` below.
-/

/-- All proper prefixes of a text (the empty text included). -/
def properPrefixes (d : List Char) : List (List Char) :=
  (List.range d.length).map (fun k => d.take k)

/-- Boundary-aligned continuations of a document-text list: every text of
the form "the next j whole documents followed by a proper prefix of the
(j+1)-st", the full concatenation included.  These are exactly the texts
that can follow a document in the accumulation buffer. -/
def conts : List (List Char) → List (List Char)
  | [] => [[]]
  | d :: ds => properPrefixes d ++ (conts ds).map (fun e => d ++ e)

/-- Self-delimiting document list for a given splitter: every document is
nonempty, the splitter extracts exactly that document and its value in
front of every boundary-aligned continuation, and extracts nothing from
any proper prefix of a document.  For `jsonSplitter` this holds for whole
objects, arrays, strings and literals without internal whitespace; it
fails for bare numbers (maximal munch re-splits them) and for documents
whose internal whitespace can end a buffer (the strip drops it). -/
def GoodDocs {α : Type} (split : List Char → Option (α × List Char)) :
    List (List Char × α) → Prop
  | [] => True
  | (d, v) :: ds =>
    d ≠ [] ∧
    (∀ e ∈ conts (ds.map Prod.fst), split (d ++ e) = some (v, e)) ∧
    (∀ p ∈ properPrefixes d, split p = none) ∧
    GoodDocs split ds

instance decGoodDocs {α : Type} [DecidableEq α]
    (split : List Char → Option (α × List Char)) :
    (ds : List (List Char × α)) → Decidable (GoodDocs split ds)
  | [] => .isTrue trivial
  | (_, _) :: ds =>
    have : Decidable (GoodDocs split ds) := decGoodDocs split ds
    by unfold GoodDocs; infer_instance

/-- The buffer retained between chunks: a proper prefix of the next
document, or empty when no document is pending. -/
def ContTail : List (List Char) → List Char → Prop
  | [], p => p = []
  | t :: _, p => p.length < t.length ∧ p <+: t

theorem goodDocs_ne_nil {α : Type} {split : List Char → Option (α × List Char)} :
    ∀ {ds : List (List Char × α)}, GoodDocs split ds →
      ∀ t ∈ ds.map Prod.fst, t ≠ []
  | [], _, t, ht => by simp at ht
  | (d, v) :: ds, h, t, ht => by
    obtain ⟨h1, -, -, h4⟩ := h
    rcases List.mem_cons.mp ht with rfl | ht'
    · exact h1
    · exact goodDocs_ne_nil h4 t ht'

theorem goodDocs_append_right {α : Type}
    {split : List Char → Option (α × List Char)} :
    ∀ {ds₁ ds₂ : List (List Char × α)}, GoodDocs split (ds₁ ++ ds₂) →
      GoodDocs split ds₂
  | [], _, h => h
  | (_, _) :: _, _, h => goodDocs_append_right h.2.2.2

theorem mem_conts_of_tail :
    ∀ (ts₁ ts₂ : List (List Char)) (p : List Char), ContTail ts₂ p →
      ts₁.flatten ++ p ∈ conts (ts₁ ++ ts₂)
  | [], ts₂, p, h => by
    simp only [List.flatten_nil, List.nil_append, List.nil_append]
    cases ts₂ with
    | nil =>
      have hp : p = [] := h
      subst hp
      simp [conts]
    | cons t ts =>
      obtain ⟨hlen, hpre⟩ := h
      unfold conts
      apply List.mem_append_left
      unfold properPrefixes
      exact List.mem_map.mpr ⟨p.length, List.mem_range.mpr hlen,
        (List.prefix_iff_eq_take.mp hpre).symm⟩
  | t :: ts₁, ts₂, p, h => by
    unfold conts
    apply List.mem_append_right
    refine List.mem_map.mpr ⟨ts₁.flatten ++ p, mem_conts_of_tail ts₁ ts₂ p h, ?_⟩
    simp [List.append_assoc]

/-- Any buffer content that is left-aligned with the document
concatenation splits into whole leading documents plus a proper prefix of
the next one. -/
theorem alignDocs {α : Type} :
    ∀ (ds : List (List Char × α)) (b r : List Char),
      b ++ r = (ds.map Prod.fst).flatten →
      ∃ ds₁ ds₂ p, ds = ds₁ ++ ds₂ ∧
        b = (ds₁.map Prod.fst).flatten ++ p ∧ ContTail (ds₂.map Prod.fst) p
  | [], b, r, h => by
    refine ⟨[], [], [], rfl, ?_, rfl⟩
    have hb : b = [] := (List.append_eq_nil.mp (by simpa using h)).1
    simp [hb]
  | (d, v) :: ds, b, r, h => by
    simp only [List.map_cons, List.flatten_cons] at h
    rcases Nat.lt_or_ge b.length d.length with hlt | hge
    · refine ⟨[], (d, v) :: ds, b, rfl, by simp, hlt, ?_⟩
      exact List.prefix_of_prefix_length_le ⟨r, h⟩ ⟨_, rfl⟩ (Nat.le_of_lt hlt)
    · have hdb : d <+: b :=
        List.prefix_of_prefix_length_le ⟨_, h.symm⟩ ⟨r, rfl⟩ hge
      obtain ⟨b', rfl⟩ := hdb
      have h' : b' ++ r = (ds.map Prod.fst).flatten := by
        rw [List.append_assoc] at h
        exact List.append_cancel_left h
      obtain ⟨ds₁, ds₂, p, hds, hb, hct⟩ := alignDocs ds b' r h'
      exact ⟨(d, v) :: ds₁, ds₂, p, by rw [hds, List.cons_append],
        by simp [hb, List.append_assoc], hct⟩

/-- The splitter loop extracts exactly the whole documents at the front of
the buffer and leaves the trailing proper prefix. -/
theorem drainAux_extract {α : Type} (split : List Char → Option (α × List Char))
    (hnil : split [] = none) :
    ∀ (ds₁ ds₂ : List (List Char × α)) (p : List Char) (fuel : Nat),
      GoodDocs split (ds₁ ++ ds₂) → ContTail (ds₂.map Prod.fst) p →
      ds₁.length < fuel →
      drainAux split fuel ((ds₁.map Prod.fst).flatten ++ p) =
        (ds₁.map Prod.snd, p)
  | [], ds₂, p, fuel, hgood, htail, hfuel => by
    have hsplit : split p = none := by
      cases ds₂ with
      | nil =>
        have hp : p = [] := htail
        subst hp
        exact hnil
      | cons dv ds =>
        obtain ⟨d, v⟩ := dv
        obtain ⟨hlen, hpre⟩ := htail
        have hmem : p ∈ properPrefixes d :=
          List.mem_map.mpr ⟨p.length, List.mem_range.mpr hlen,
            (List.prefix_iff_eq_take.mp hpre).symm⟩
        exact hgood.2.2.1 p hmem
    cases fuel with
    | zero => omega
    | succ f => simp [drainAux, hsplit]
  | (d, v) :: ds₁, ds₂, p, fuel, hgood, htail, hfuel => by
    obtain ⟨hne, hsplit, hpref, hrest⟩ := hgood
    cases fuel with
    | zero => omega
    | succ f =>
      have he : (ds₁.map Prod.fst).flatten ++ p ∈ conts ((ds₁ ++ ds₂).map Prod.fst) := by
        rw [List.map_append]
        exact mem_conts_of_tail _ _ _ htail
      have hs := hsplit _ he
      have hrec := drainAux_extract split hnil ds₁ ds₂ p f hrest htail
        (by simp only [List.length_cons] at hfuel; omega)
      simp only [List.map_cons, List.flatten_cons, List.append_assoc]
      simp [drainAux, hs, hrec]

theorem length_le_flatten_length :
    ∀ (ts : List (List Char)), (∀ t ∈ ts, t ≠ []) →
      ts.length ≤ ts.flatten.length
  | [], _ => by simp
  | t :: ts, h => by
    have h1 : 1 ≤ t.length :=
      List.length_pos.mpr (h t (List.mem_cons_self t ts))
    have h2 := length_le_flatten_length ts (fun u hu => h u (List.mem_cons_of_mem t hu))
    simp only [List.length_cons, List.flatten_cons, List.length_append]
    omega

theorem drain_extract {α : Type} (split : List Char → Option (α × List Char))
    (hnil : split [] = none) (ds₁ ds₂ : List (List Char × α)) (p : List Char)
    (hgood : GoodDocs split (ds₁ ++ ds₂)) (htail : ContTail (ds₂.map Prod.fst) p) :
    drain split ((ds₁.map Prod.fst).flatten ++ p) = (ds₁.map Prod.snd, p) := by
  apply drainAux_extract split hnil ds₁ ds₂ p _ hgood htail
  have hne : ∀ t ∈ ds₁.map Prod.fst, t ≠ [] := by
    intro t ht
    exact goodDocs_ne_nil hgood t (by rw [List.map_append]; exact List.mem_append_left _ ht)
  have h1 := length_le_flatten_length (ds₁.map Prod.fst) hne
  have h2 : (ds₁.map Prod.fst).length = ds₁.length := List.length_map _ _
  simp only [List.length_append]
  omega

/-- Main lemma: a full iteration from a boundary-aligned state yields
exactly the pending document values. -/
theorem runSplit_extract {ε α : Type} (split : List Char → Option (α × List Char))
    (dec : List Char → Except ε α) (hnil : split [] = none) :
    ∀ (cs : List (List Char)) (ds : List (List Char × α)) (p : List Char),
      GoodDocs split ds → ContTail (ds.map Prod.fst) p →
      p ++ cs.flatten = (ds.map Prod.fst).flatten →
      runSplit split dec cs p = ⟨ds.map Prod.snd, false⟩
  | [], ds, p, hgood, htail, heq => by
    cases ds with
    | nil =>
      have hp : p = [] := by simpa using heq
      subst hp
      simp [runSplit, drain, drainAux, hnil]
    | cons dv ds =>
      obtain ⟨d, v⟩ := dv
      exfalso
      obtain ⟨hlen, -⟩ := htail
      have hlen' : p.length < d.length := hlen
      have hl : p.length = d.length + (List.map Prod.fst ds).flatten.length := by
        have := congrArg List.length heq
        simpa [List.length_append] using this
      omega
  | c :: cs, ds, p, hgood, htail, heq => by
    have heq' : (p ++ c) ++ cs.flatten = (ds.map Prod.fst).flatten := by
      rw [List.append_assoc]
      simpa using heq
    obtain ⟨ds₁, ds₂, p', hds, hb, hct⟩ := alignDocs ds (p ++ c) cs.flatten heq'
    subst hds
    have hdrain := drain_extract split hnil ds₁ ds₂ p' hgood hct
    have hrec : runSplit split dec cs p' = ⟨ds₂.map Prod.snd, false⟩ := by
      apply runSplit_extract split dec hnil cs ds₂ p'
        (goodDocs_append_right hgood) hct
      have hflat : (ds₁.map Prod.fst).flatten ++ (p' ++ cs.flatten)
          = (ds₁.map Prod.fst).flatten ++ (ds₂.map Prod.fst).flatten := by
        rw [← List.append_assoc, ← hb, heq', List.map_append, List.flatten_append]
      exact List.append_cancel_left hflat
    simp only [runSplit]
    rw [hb, hdrain]
    simp [hrec, List.map_append]

/-- C1, as stated, is false on the code: the two chunks `"1"`, `"2"`
concatenate to the single complete JSON document `"12"` (one document,
`N = 1`), yet iterating the stream over these chunks yields two decoded
objects `1` and `2`, while the unsplit chunking yields the one object
`12`: the output is not chunk-boundary independent, and its length is not
the number of documents of the concatenation. -/
theorem c1_counterexample :
    jsonDecodeE "12".toList = Except.ok (Json.num 12) ∧
    runSplitStream jsonSplitter jsonDecodeE ["12".toList] =
      ⟨[Json.num 12], false⟩ ∧
    runSplitStream jsonSplitter jsonDecodeE ["1".toList, "2".toList] =
      ⟨[Json.num 1, Json.num 2], false⟩ := by
  refine ⟨by decide, by decide, by decide⟩

/-- C1 (amended): for every list of documents that is self-delimiting for
the JSON splitter (`GoodDocs`: nonempty documents, each splitting off
exactly itself ahead of every boundary-aligned continuation, no proper
prefix splitting — which excludes bare numbers and whitespace loss), and
for every way of cutting the concatenated text into chunks, iterating the
JSON stream yields exactly the N document values in document order and no
tail error. -/
theorem c1_chunk_boundary_independence
    (docs : List (List Char × Json)) (chunks : List (List Char))
    (hgood : GoodDocs jsonSplitter docs)
    (hchunks : chunks.flatten = (docs.map Prod.fst).flatten) :
    runSplitStream jsonSplitter jsonDecodeE chunks =
      ⟨docs.map Prod.snd, false⟩ := by
  have hnil : jsonSplitter [] = none := by decide
  apply runSplit_extract jsonSplitter jsonDecodeE hnil chunks docs []
  · exact hgood
  · cases docs with
    | nil => rfl
    | cons dv ds =>
      obtain ⟨d, v⟩ := dv
      exact ⟨List.length_pos.mpr hgood.1, ⟨d, rfl⟩⟩
  · simpa using hchunks

/-- Witness for C1 (amended): the documents `true` and `null`, cut at
boundaries `"tr" / "uenu" / "ll"` that split both documents. -/
theorem c1_chunk_boundary_independence_witness :
    GoodDocs jsonSplitter
      [("true".toList, Json.bool true), ("null".toList, Json.null)] ∧
    (["tr".toList, "uenu".toList, "ll".toList] : List (List Char)).flatten =
      ([("true".toList, Json.bool true), ("null".toList, Json.null)].map
        Prod.fst).flatten ∧
    runSplitStream jsonSplitter jsonDecodeE
      ["tr".toList, "uenu".toList, "ll".toList] =
      ⟨[Json.bool true, Json.null], false⟩ :=
  ⟨by decide, by decide,
    c1_chunk_boundary_independence
      [("true".toList, Json.bool true), ("null".toList, Json.null)]
      ["tr".toList, "uenu".toList, "ll".toList] (by decide) (by decide)⟩

/-!
## Tail handling and error wrapping of one `__anext__` call
(claims C2, C3, C7)
-/

/-- `docker.utils.json_stream.line_splitter` (external collaborator; the
default splitter of `split_buffer`): cut at the first newline, keeping the
separator with the line; no newline means no frame yet. -/
def lineSplitter (buffer : List Char) : Option (List Char × List Char) :=
  match buffer.findIdx? (fun c => c = '\n') with
  | none => none
  | some i => some (buffer.take (i + 1), buffer.drop (i + 1))

example : lineSplitter "ab\ncd".toList = some ("ab\n".toList, "cd".toList) := by
  decide
example : lineSplitter "abc".toList = none := by decide

/-- C2: when the transport has signalled completion (no pending reads)
while the buffer is non-empty and the splitter extracts no frame from it,
one `__anext__` call decodes the entire remaining buffer as a single
final item and clears it; the following call then raises
`StopAsyncIteration`.  So the tail is decoded at most once per stream,
and exhaustion is signalled only after it. -/
theorem c2_tail_decoded_once {ε α : Type}
    (split : List Char → Option (α × List Char)) (dec : List Char → Except ε α)
    (buf : List Char) (a : α)
    (hne : buf ≠ []) (hsplit : split buf = none)
    (hdec : dec buf = Except.ok a) (hnil : split [] = none) :
    splitStep split dec ([], buf) = (.item a, ([], [])) ∧
    splitStep split dec ([], []) = (.stop, ([], [])) := by
  constructor
  · simp [splitStep, splitStepAux, hsplit, hne, hdec]
  · simp [splitStep, splitStepAux, hnil]

/-- Witness for C2: the default pipeline of `split_buffer`
(`line_splitter` with the identity decoder) on the delimiterless tail
`"abc"`. -/
theorem c2_tail_decoded_once_witness :
    "abc".toList ≠ [] ∧ lineSplitter "abc".toList = none ∧
    lineSplitter [] = none ∧
    splitStep lineSplitter (fun b => (Except.ok b : Except Unit (List Char)))
      ([], "abc".toList) = (.item "abc".toList, ([], [])) ∧
    splitStep lineSplitter (fun b => (Except.ok b : Except Unit (List Char)))
      ([], []) = (.stop, ([], [])) := by
  have h := c2_tail_decoded_once lineSplitter
    (fun b => (Except.ok b : Except Unit (List Char))) "abc".toList "abc".toList
    (by decide) (by decide) (by decide) (by decide)
  exact ⟨by decide, by decide, by decide, h.1, h.2⟩

/-- C3: if decoding the end-of-stream tail fails with exception `e`, the
`__anext__` call raises `ChunkedStreamingError` whose cause is exactly
`e` (`raise ChunkedStreamingError() from e`), and in particular never the
raw decoder exception itself. -/
theorem c3_tail_failure_wrapped {ε α : Type}
    (split : List Char → Option (α × List Char)) (dec : List Char → Except ε α)
    (buf : List Char) (e : ε)
    (hne : buf ≠ []) (hsplit : split buf = none)
    (hdec : dec buf = Except.error e) :
    splitStep split dec ([], buf) =
      (.err (.chunkedStreamingError (some e)), ([], [])) ∧
    ∀ e' : ε, (splitStep split dec ([], buf)).1 ≠ .err (.raw e') := by
  have h : splitStep split dec ([], buf) =
      (.err (.chunkedStreamingError (some e)), ([], [])) := by
    simp [splitStep, splitStepAux, hsplit, hne, hdec]
  refine ⟨h, fun e' => ?_⟩
  rw [h]
  simp

/-- Witness for C3: the malformed JSON tail `{"a":` of the spec's own
example; the decoder's `ValueError` carries the offending text. -/
theorem c3_tail_failure_wrapped_witness :
    badTail ≠ [] ∧ jsonSplitter badTail = none ∧
    jsonDecodeE badTail = Except.error badTail ∧
    splitStep jsonSplitter jsonDecodeE ([], badTail) =
      (.err (.chunkedStreamingError (some badTail)), ([], [])) := by
  have h := c3_tail_failure_wrapped jsonSplitter jsonDecodeE
    badTail badTail (by decide) (by decide) (by decide)
  exact ⟨by decide, by decide, by decide, h.1⟩

/-- C7, as stated, is false on the code: there is no distinct
transport-corruption error class in the repository (`errors.py` defines
only `ChunkedStreamingError`), and `ChunkedBytesStream.__anext__` wraps an
`aiohttp.ClientPayloadError` raised mid-read as
`raise ChunkedStreamingError() from e` — the very framing-layer error
class the claim says it must be distinct from.  Concretely, a transport
failing on its first read surfaces `ChunkedStreamingError`. -/
theorem c7_counterexample :
    splitStep jsonSplitter jsonDecodeE ([RawRead.fail "reset".toList], []) =
      (.err (.chunkedStreamingError (some "reset".toList)), ([], [])) := by
  decide

/-- C7 (amended): a transport payload failure mid-read is surfaced by the
chunk reader as `ChunkedStreamingError` carrying the payload error as its
cause — the same exception class as the framing layer's tail errors, not
a distinct one — and the framing layer (`SplitStream.__anext__`)
propagates that already-raised error unchanged, without re-wrapping. -/
theorem c7_payload_error_wrapped {ε α : Type}
    (split : List Char → Option (α × List Char)) (dec : List Char → Except ε α)
    (buf : List Char) (e : ε) (tr : List (RawRead ε))
    (hsplit : split buf = none) :
    splitStep split dec (RawRead.fail e :: tr, buf) =
      (.err (.chunkedStreamingError (some e)), (tr, buf)) := by
  simp [splitStep, splitStepAux, hsplit, chunkNext, chunkNextAux]

/-- Witness for C7 (amended): a payload failure with one further pending
read and a buffered partial document. -/
theorem c7_payload_error_wrapped_witness :
    jsonSplitter ['{'] = none ∧
    splitStep jsonSplitter jsonDecodeE
      ([RawRead.fail "rst".toList, RawRead.part "x".toList true], ['{']) =
      (.err (.chunkedStreamingError (some "rst".toList)),
        ([RawRead.part "x".toList true], ['{'])) := by
  have h := c7_payload_error_wrapped jsonSplitter jsonDecodeE
    ['{'] "rst".toList [RawRead.part "x".toList true] (by decide)
  exact ⟨by decide, h⟩

/-!
## `AsyncExitStack.__aexit__` (claims C4, C8)

Python exceptions are modelled with their `__context__` chain (`Exc.base`
is an exception with `__context__ = None`; `Exc.chained p c` has context
`c`).  The only mutation the unwind loop performs on exceptions is
`_fix_exception_context`, reproduced as `fixCtx` (the enclosing
`frame_exc` is `None` in the modelled frame, which merges its test with
the `is None` test, as in the source).

A registered exit callback is either a plain synchronous callable or an
`async def` wrapper (what `_push_cm_aexit` / `enter_async_context` push).
In the source, `__aexit__` guards the await with `inspect.isawaitable(cb)`
— which is `False` for a function object, async or not (only coroutine
*objects* are awaitable).  So an async wrapper is merely *called*: this
creates a coroutine object without running the body, and the truthy
coroutine is then treated as `result` — taken as "exception suppressed".
`ExitCb.run` is the callback body; for `kind = .asyncFn` the body is
never executed by the model, exactly as in the source.
-/

/-- A Python exception value with its `__context__` chain. -/
inductive Exc (ε : Type) where
  | base (payload : ε) : Exc ε
  | chained (payload : ε) (context : Exc ε) : Exc ε
deriving DecidableEq

/-- `_fix_exception_context(new_exc, old_exc)`
(contextlib.py:176-188): walk `new_exc`'s context chain; if `old_exc` is
found the chain is already correct; at the end of the chain (context
`None`), set the context to `old_exc`. -/
def fixCtx {ε : Type} [DecidableEq ε] (old : Option (Exc ε)) : Exc ε → Exc ε
  | .base p =>
    match old with
    | none => .base p
    | some o => .chained p o
  | .chained p c => if some c = old then .chained p c else .chained p (fixCtx old c)

/-- How a registered exit callback behaves when its body runs: return a
truthiness `Bool` (suppression flag) or raise an exception. -/
inductive CbKind where
  | sync : CbKind
  | asyncFn : CbKind
deriving DecidableEq

/-- A registered exit callback: a tag identifying it, whether it is an
`async def` wrapper, and its body. -/
structure ExitCb (ε : Type) where
  tag : Nat
  kind : CbKind
  run : Option (Exc ε) → Except (Exc ε) Bool

/-- Result of `__aexit__`: the tags of the callback bodies that actually
ran, in invocation order, and the outcome (a raised exception, or the
returned `received_exc and suppressed_exc`). -/
structure UnwindOut (ε : Type) where
  executed : List Nat
  result : Except (Exc ε) Bool
deriving DecidableEq

/-- The `while self._exit_callbacks` loop of `AsyncExitStack.__aexit__`
(contextlib.py:194-210), over the callbacks in pop (reverse-registration)
order.  State: current `exc_details`, `suppressed_exc`, `pending_raise`,
and the executed-body trace.  A `.sync` callback's body runs on the
current `exc_details`; truthy result suppresses, a raise is chained via
`fixCtx` and recorded as pending.  An `.asyncFn` callback is called but
not awaited (`inspect.isawaitable(cb)` is false for a function), so the
body does not run and the truthy coroutine object suppresses. -/
def unwindLoop {ε : Type} [DecidableEq ε] :
    List (ExitCb ε) → Option (Exc ε) → Bool → Bool → List Nat →
      List Nat × Option (Exc ε) × Bool × Bool
  | [], exc, supp, pend, tr => (tr, exc, supp, pend)
  | cb :: rest, exc, supp, pend, tr =>
    match cb.kind with
    | .asyncFn => unwindLoop rest none true false tr
    | .sync =>
      match cb.run exc with
      | .ok b =>
        if b then unwindLoop rest none true false (tr ++ [cb.tag])
        else unwindLoop rest exc supp pend (tr ++ [cb.tag])
      | .error e => unwindLoop rest (some (fixCtx exc e)) supp true (tr ++ [cb.tag])

/-- `AsyncExitStack.__aexit__` (contextlib.py:169-220): run the unwind
loop over the registered callbacks in reverse-registration order
(`deque.pop()` takes the most recently pushed first); afterwards re-raise
the pending exception if any, else return
`received_exc and suppressed_exc`. -/
def aexitModel {ε : Type} [DecidableEq ε] (cbs : List (ExitCb ε))
    (excIn : Option (Exc ε)) : UnwindOut ε :=
  let r := unwindLoop cbs.reverse excIn false false []
  match r with
  | (tr, exc, supp, pend) =>
    if pend then
      match exc with
      | some e => ⟨tr, .error e⟩
      | none => ⟨tr, .ok (excIn.isSome && supp)⟩
    else ⟨tr, .ok (excIn.isSome && supp)⟩

/-- C4: with three synchronously-released resources A, B, C registered in
that order, where B's release raises a fresh exception and A's and C's
releases return normally, unwinding still runs all three releases, in
the order C, B, A, and the surfaced error is exactly B's exception: the
loop does not abort at B's failure. -/
theorem c4_unwind_attempts_every_release {ε : Type} [DecidableEq ε]
    (fA fB fC : Option (Exc ε) → Except (Exc ε) Bool)
    (tA tB tC : Nat) (eB : ε)
    (hC : fC none = .ok false)
    (hB : fB none = .error (.base eB))
    (hA : fA (some (.base eB)) = .ok false) :
    aexitModel [⟨tA, .sync, fA⟩, ⟨tB, .sync, fB⟩, ⟨tC, .sync, fC⟩] none =
      ⟨[tC, tB, tA], .error (.base eB)⟩ := by
  simp [aexitModel, unwindLoop, hC, hB, hA, fixCtx]

/-- Witness for C4 at concrete releases. -/
theorem c4_unwind_attempts_every_release_witness :
    (fun (_ : Option (Exc Nat)) => (Except.ok false : Except (Exc Nat) Bool)) none =
      .ok false ∧
    (fun (_ : Option (Exc Nat)) => (Except.error (Exc.base 9) : Except (Exc Nat) Bool))
      none = .error (.base 9) ∧
    aexitModel
      [⟨1, .sync, fun _ => (Except.ok false : Except (Exc Nat) Bool)⟩,
       ⟨2, .sync, fun _ => Except.error (Exc.base 9)⟩,
       ⟨3, .sync, fun _ => Except.ok false⟩] none =
      ⟨[3, 2, 1], .error (.base 9)⟩ :=
  ⟨rfl, rfl,
    c4_unwind_attempts_every_release
      (fun _ => Except.ok false) (fun _ => Except.error (Exc.base 9))
      (fun _ => Except.ok false) 1 2 3 9 rfl rfl rfl⟩

/-- C8 is right about the intent but the code contradicts it (and its own
`push` docstring, which promises awaiting): an asynchronous release
action registered on the stack is never awaited, because
`inspect.isawaitable` is false for the pushed `async def` wrapper.  At
the failing input — one async-registered resource, unwinding with an
in-flight exception — the release body never runs (`executed = []`) and
the unawaited coroutine object is truthy, so `__aexit__` even reports the
in-flight exception as suppressed (`.ok true`).  A synchronous callback
at the same input runs and does not suppress, showing the divergence is
specific to the async path. -/
theorem c8_async_release_never_awaited :
    aexitModel
      [⟨7, .asyncFn, fun _ => (Except.ok false : Except (Exc Nat) Bool)⟩]
      (some (.base 0)) = ⟨[], .ok true⟩ ∧
    aexitModel
      [⟨7, .sync, fun _ => (Except.ok false : Except (Exc Nat) Bool)⟩]
      (some (.base 0)) = ⟨[7], .ok false⟩ :=
  ⟨rfl, rfl⟩

/-!
## `StreamableResponse.ready` under concurrent callers (claims C5, C10)

Cooperative single-threaded concurrency: a call of `ready()`
(streamed_response.py:36-50) runs atomically up to its one suspension
point (`await self.pending_response`) and resumes atomically after it.
The model is a labelled transition system over the shared attributes of
one `StreamableResponse` plus the program counters of `n` caller tasks;
an arbitrary schedule interleaves task steps and the resolution of the
pending response.  `r` is the response the pending future resolves to.

* `check i`: task `i` executes the first `if self.response is None`.  If
  the response attribute is set the call returns at once; otherwise the
  task reaches `await self.pending_response`, which awaits the future
  (counted in `awaits`) and suspends.
* `resolve`: the pending response becomes ready (enabled once).
* `resume i`: task `i` returns from its await (only after `resolve`) and
  executes the second `if self.response is None` check; if still unset it
  assigns `self.response = response` and
  `self.stream = JsonStream(response)` — the stored `stream_class`
  attribute is not consulted (streamed_response.py:49).
-/

/-- Program counter of one `ready()` caller. -/
inductive TaskPC where
  | start : TaskPC
  | awaiting : TaskPC
  | done : TaskPC
deriving DecidableEq

/-- The value of the `stream_class` attribute
(`JsonStream` is the default). -/
inductive StreamKind where
  | jsonStreamK : StreamKind
  | chunkedBytesStreamK : StreamKind
  | otherK (n : Nat) : StreamKind
deriving DecidableEq

/-- Shared state of one `StreamableResponse` together with the caller
tasks' program counters and two observation counters. -/
structure ReadyState where
  pcs : List TaskPC
  response : Option Nat
  stream : Option (StreamKind × Nat)
  streamClass : StreamKind
  resolved : Bool
  awaits : Nat
  assigns : Nat
deriving DecidableEq

/-- Scheduler events. -/
inductive ReadyEvent where
  | check (i : Nat) : ReadyEvent
  | resolve : ReadyEvent
  | resume (i : Nat) : ReadyEvent
deriving DecidableEq

/-- One scheduler step; `none` when the event is not enabled. -/
def readyStep (r : Nat) (s : ReadyState) : ReadyEvent → Option ReadyState
  | .check i =>
    match s.pcs[i]? with
    | some .start =>
      match s.response with
      | some _ => some { s with pcs := s.pcs.set i .done }
      | none => some { s with pcs := s.pcs.set i .awaiting, awaits := s.awaits + 1 }
    | _ => none
  | .resolve => if s.resolved then none else some { s with resolved := true }
  | .resume i =>
    match s.pcs[i]? with
    | some .awaiting =>
      if s.resolved then
        match s.response with
        | none =>
          some { s with pcs := s.pcs.set i .done, response := some r,
                        stream := some (.jsonStreamK, r), assigns := s.assigns + 1 }
        | some _ => some { s with pcs := s.pcs.set i .done }
      else none
    | _ => none

/-- Run a schedule; `none` if any event was not enabled. -/
def runReady (r : Nat) : List ReadyEvent → ReadyState → Option ReadyState
  | [], s => some s
  | ev :: evs, s =>
    match readyStep r s ev with
    | none => none
    | some s' => runReady r evs s'

/-- Fresh `StreamableResponse` with `n` caller tasks and the given
`stream_class` argument. -/
def initReady (n : Nat) (sc : StreamKind) : ReadyState :=
  ⟨List.replicate n .start, none, none, sc, false, 0, 0⟩

/-- Reachability invariant of the `ready()` machine: the stored
`stream_class` never changes and is never consulted; before the single
assignment nothing is set and no task has returned; after it the
response and the `JsonStream` over it are set, exactly one assignment has
happened, and the pending response has been awaited at least once. -/
def ReadyInv (n r : Nat) (sc : StreamKind) (s : ReadyState) : Prop :=
  s.pcs.length = n ∧ s.streamClass = sc ∧
  ((s.response = none ∧ s.stream = none ∧ s.assigns = 0 ∧
      (∀ pc ∈ s.pcs, pc ≠ .done) ∧
      ((∃ pc ∈ s.pcs, pc = .awaiting) → 1 ≤ s.awaits)) ∨
   (s.response = some r ∧ s.stream = some (.jsonStreamK, r) ∧
      s.assigns = 1 ∧ 1 ≤ s.awaits))

theorem readyStep_inv {n r : Nat} {sc : StreamKind} {s s' : ReadyState}
    {ev : ReadyEvent} (h : readyStep r s ev = some s')
    (hinv : ReadyInv n r sc s) : ReadyInv n r sc s' := by
  obtain ⟨hlen, hsc, hbr⟩ := hinv
  cases ev with
  | check i =>
    simp only [readyStep] at h
    rcases hpc : s.pcs[i]? with - | pc
    · rw [hpc] at h; exact absurd h (by simp)
    · rw [hpc] at h
      cases pc with
      | start =>
        rcases hresp : s.response with - | v
        · rw [hresp] at h
          injection h with h'
          subst h'
          refine ⟨by simp [hlen], hsc, ?_⟩
          rcases hbr with ⟨h1, h2, h3, h4, h5⟩ | hr
          · refine Or.inl ⟨rfl, h2, h3, ?_, fun _ => Nat.succ_le_succ (Nat.zero_le _)⟩
            intro pc hmem
            rcases List.mem_or_eq_of_mem_set hmem with hmem' | rfl
            · exact h4 pc hmem'
            · simp
          · rw [hresp] at hr
            exact absurd hr.1 (by simp)
        · rw [hresp] at h
          injection h with h'
          subst h'
          refine ⟨by simp [hlen], hsc, ?_⟩
          rcases hbr with ⟨h1, -, -, -, -⟩ | hr
          · rw [hresp] at h1; exact absurd h1 (by simp)
          · have hv : v = r := (Option.some.inj (hr.1.symm.trans hresp)).symm
            subst hv
            exact Or.inr ⟨rfl, hr.2.1, hr.2.2.1, hr.2.2.2⟩
      | awaiting => exact absurd h (by simp)
      | done => exact absurd h (by simp)
  | resolve =>
    simp only [readyStep] at h
    rcases hres : s.resolved with - | -
    · rw [hres] at h
      simp at h
      subst h
      exact ⟨hlen, hsc, hbr⟩
    · rw [hres] at h
      simp at h
  | resume i =>
    simp only [readyStep] at h
    rcases hpc : s.pcs[i]? with - | pc
    · rw [hpc] at h; exact absurd h (by simp)
    · rw [hpc] at h
      cases pc with
      | start => exact absurd h (by simp)
      | done => exact absurd h (by simp)
      | awaiting =>
        rcases hres : s.resolved with - | -
        · rw [hres] at h; simp at h
        · rw [hres] at h
          simp only [if_true] at h
          rcases hresp : s.response with - | v
          · rw [hresp] at h
            injection h with h'
            subst h'
            refine ⟨by simp [hlen], hsc, ?_⟩
            rcases hbr with ⟨-, -, h3, -, h5⟩ | hr
            · refine Or.inr ⟨by simp, by simp, by simp [h3], ?_⟩
              exact h5 ⟨.awaiting, List.getElem?_mem hpc, rfl⟩
            · rw [hresp] at hr
              exact absurd hr.1 (by simp)
          · rw [hresp] at h
            injection h with h'
            subst h'
            refine ⟨by simp [hlen], hsc, ?_⟩
            rcases hbr with ⟨h1, -, -, -, -⟩ | hr
            · rw [hresp] at h1; exact absurd h1 (by simp)
            · have hv : v = r := (Option.some.inj (hr.1.symm.trans hresp)).symm
              subst hv
              exact Or.inr ⟨rfl, hr.2.1, hr.2.2.1, hr.2.2.2⟩

theorem runReady_inv {n r : Nat} {sc : StreamKind} :
    ∀ (evs : List ReadyEvent) (s s' : ReadyState),
      runReady r evs s = some s' → ReadyInv n r sc s → ReadyInv n r sc s'
  | [], s, s', h, hinv => by
    simp only [runReady] at h
    injection h with h'
    exact h' ▸ hinv
  | ev :: evs, s, s', h, hinv => by
    simp only [runReady] at h
    rcases hst : readyStep r s ev with - | s1
    · rw [hst] at h; exact absurd h (by simp)
    · rw [hst] at h
      exact runReady_inv evs s1 s' h (readyStep_inv hst hinv)

theorem initReady_inv (n r : Nat) (sc : StreamKind) :
    ReadyInv n r sc (initReady n sc) := by
  refine ⟨by simp [initReady], rfl, Or.inl ⟨rfl, rfl, rfl, ?_, ?_⟩⟩
  · intro pc hmem
    have := List.eq_of_mem_replicate hmem
    subst this
    simp
  · intro ⟨pc, hmem, hpc⟩
    have := List.eq_of_mem_replicate hmem
    subst this
    exact absurd hpc (by simp)

/-- C5, as stated, is false on the code: with two callers both entering
`ready()` before the pending response resolves, each caller passes the
first `response is None` check and executes `await self.pending_response`
itself — the pending response is awaited twice, not exactly once
(`awaits = 2` in the final state below).  The double-check only prevents
a second *assignment*. -/
theorem c5_counterexample :
    runReady 7 [.check 0, .check 1, .resolve, .resume 0, .resume 1]
      (initReady 2 .jsonStreamK) =
    some ⟨[.done, .done], some 7, some (.jsonStreamK, 7), .jsonStreamK,
      true, 2, 1⟩ := by
  decide

/-- C5 (amended): under every schedule of any number of concurrent
`ready()` callers (at least one), once all callers have returned, the
resolved response and the stream built over it have been assigned exactly
once (the first resumed caller wins; later resumers see `response`
non-`None` and skip), every caller observes that same single resolved
state, and the pending response has been awaited at least once — but
possibly once per caller that began before resolution, not exactly
once. -/
theorem c5_ready_single_resolution (n r : Nat) (sc : StreamKind)
    (evs : List ReadyEvent) (s : ReadyState)
    (hn : 1 ≤ n)
    (hrun : runReady r evs (initReady n sc) = some s)
    (hdone : ∀ pc ∈ s.pcs, pc = .done) :
    s.response = some r ∧ s.stream = some (.jsonStreamK, r) ∧
      s.assigns = 1 ∧ 1 ≤ s.awaits := by
  have hinv : ReadyInv n r sc s :=
    runReady_inv evs _ s hrun (initReady_inv n r sc)
  obtain ⟨hlen, -, hbr⟩ := hinv
  rcases hbr with ⟨-, -, -, h4, -⟩ | hr
  · exfalso
    have hne : s.pcs ≠ [] := by
      intro hnil
      rw [hnil] at hlen
      simp at hlen
      omega
    obtain ⟨pc, hmem⟩ := List.exists_mem_of_ne_nil s.pcs hne
    exact h4 pc hmem (hdone pc hmem)
  · exact hr

/-- Witness for C5 (amended): one caller, resolved and resumed. -/
theorem c5_ready_single_resolution_witness :
    runReady 4 [.check 0, .resolve, .resume 0] (initReady 1 .jsonStreamK) =
      some ⟨[.done], some 4, some (.jsonStreamK, 4), .jsonStreamK, true, 1, 1⟩ ∧
    ((⟨[.done], some 4, some (.jsonStreamK, 4), .jsonStreamK, true, 1, 1⟩ :
        ReadyState).response = some 4 ∧
      (⟨[.done], some 4, some (.jsonStreamK, 4), .jsonStreamK, true, 1, 1⟩ :
        ReadyState).stream = some (.jsonStreamK, 4) ∧
      (⟨[.done], some 4, some (.jsonStreamK, 4), .jsonStreamK, true, 1, 1⟩ :
        ReadyState).assigns = 1 ∧
      1 ≤ (⟨[.done], some 4, some (.jsonStreamK, 4), .jsonStreamK, true, 1, 1⟩ :
        ReadyState).awaits) :=
  ⟨by decide,
    c5_ready_single_resolution 1 4 .jsonStreamK [.check 0, .resolve, .resume 0]
      ⟨[.done], some 4, some (.jsonStreamK, 4), .jsonStreamK, true, 1, 1⟩
      (by decide) (by decide) (by decide)⟩

/-- C10: for every `StreamableResponse`, whatever `stream_class` argument
was stored at construction, the stored attribute is never consulted and
any stream `ready()` constructs is a `JsonStream` over the resolved
response (`self.stream = JsonStream(response)` is hard-coded). -/
theorem c10_stream_class_ignored (n r : Nat) (sc : StreamKind)
    (evs : List ReadyEvent) (s : ReadyState)
    (hrun : runReady r evs (initReady n sc) = some s) :
    s.streamClass = sc ∧
      (s.stream = none ∨ s.stream = some (.jsonStreamK, r)) := by
  have hinv : ReadyInv n r sc s :=
    runReady_inv evs _ s hrun (initReady_inv n r sc)
  obtain ⟨-, hsc, hbr⟩ := hinv
  refine ⟨hsc, ?_⟩
  rcases hbr with ⟨-, h2, -, -, -⟩ | hr
  · exact Or.inl h2
  · exact Or.inr hr.2.1

/-- Witness for C10: a non-default `stream_class` argument; the built
stream is nevertheless a `JsonStream` over the response. -/
theorem c10_stream_class_ignored_witness :
    runReady 9 [.check 0, .resolve, .resume 0] (initReady 1 (.otherK 3)) =
      some ⟨[.done], some 9, some (.jsonStreamK, 9), .otherK 3, true, 1, 1⟩ ∧
    ((⟨[.done], some 9, some (.jsonStreamK, 9), .otherK 3, true, 1, 1⟩ :
        ReadyState).streamClass = .otherK 3 ∧
      ((⟨[.done], some 9, some (.jsonStreamK, 9), .otherK 3, true, 1, 1⟩ :
          ReadyState).stream = none ∨
        (⟨[.done], some 9, some (.jsonStreamK, 9), .otherK 3, true, 1, 1⟩ :
          ReadyState).stream = some (.jsonStreamK, 9))) :=
  ⟨by decide,
    c10_stream_class_ignored 1 9 (.otherK 3) [.check 0, .resolve, .resume 0]
      ⟨[.done], some 9, some (.jsonStreamK, 9), .otherK 3, true, 1, 1⟩
      (by decide)⟩

/-!
## `StreamableResponse.as_list` and `__anext__` (claim C6)

`StreamableResponse.__anext__` (streamed_response.py:111-113) is

    async def __anext__(self):
        await self.ready()
        return self.stream.__anext__()

The inner call `self.stream.__anext__()` is *not* awaited: evaluating it
creates a coroutine object without running any of
`SplitStream.__anext__`'s body, and that object is the value returned.
Hence awaiting `StreamableResponse.__anext__` never raises
`StopAsyncIteration`, never advances the stream, and yields a coroutine
object instead of a decoded item.  `PyItem.coro` models such an unawaited
coroutine object.
-/

/-- The value the caller of `StreamableResponse.__anext__` receives. -/
inductive PyItem where
  | coro : PyItem
deriving DecidableEq

/-- Awaiting `StreamableResponse.__anext__` on a ready instance:
`ready()` is a no-op, and the result is the fresh unawaited coroutine of
`self.stream.__anext__()`; the stream state is untouched and no
`StopAsyncIteration` can arise. -/
def srAnext {ε : Type} (st : List (RawRead ε) × List Char) :
    PyItem × (List (RawRead ε) × List Char) :=
  (.coro, st)

/-- The collection loop of `StreamableResponse.as_list`
(streamed_response.py:75-96): return once `n` results are collected (when
`n` is given); otherwise await the iterator's `__anext__` — which, per
`srAnext`, always succeeds — and append.  The fuel only renders the
source's unbounded `while True` as a function; `none` means the loop has
not returned within `fuel` iterations. -/
def asListAux {ε : Type} (n : Option Nat) :
    Nat → List PyItem → (List (RawRead ε) × List Char) →
      Option (List PyItem × (List (RawRead ε) × List Char))
  | 0, _, _ => none
  | fuel + 1, results, st =>
    match n with
    | some k =>
      if k ≤ results.length then some (results, st)
      else
        match srAnext st with
        | (it, st') => asListAux n fuel (results ++ [it]) st'
    | none =>
      match srAnext st with
      | (it, st') => asListAux n fuel (results ++ [it]) st'

/-- With `n` unspecified the loop never returns: no amount of fuel makes
`as_list()` terminate, because `StopAsyncIteration` is never raised. -/
theorem asListAux_none_diverges {ε : Type} :
    ∀ (fuel : Nat) (results : List PyItem) (st : List (RawRead ε) × List Char),
      asListAux none fuel results st = none
  | 0, _, _ => rfl
  | fuel + 1, results, st => by
    simp only [asListAux, srAnext]
    exact asListAux_none_diverges fuel (results ++ [.coro]) st

/-- C6 is contradicted by the code: `__anext__` returns
`self.stream.__anext__()` without awaiting it (streamed_response.py:113),
so on a ready stream of five complete JSON documents `as_list(2)` returns
two unawaited coroutine objects — not the first two decoded objects — and
leaves the stream state completely unchanged (nothing was consumed), and
`as_list()` with `n` unspecified never returns at all even though the
stream is finite.  This contradicts `as_list`'s own docstring
("Iterates over the elements in this stream and return them as a list"). -/
theorem c6_as_list_broken :
    asListAux (some 2) 3 []
      ((pureTransport ["1".toList, "2".toList, "3".toList, "4".toList,
          "5".toList], []) :
        List (RawRead (List Char)) × List Char) =
      some ([.coro, .coro],
        (pureTransport ["1".toList, "2".toList, "3".toList, "4".toList,
          "5".toList], [])) ∧
    ∀ fuel : Nat,
      asListAux none fuel []
        ((pureTransport ["1".toList, "2".toList, "3".toList, "4".toList,
            "5".toList], []) :
          List (RawRead (List Char)) × List Char) = none :=
  ⟨by decide, fun fuel => asListAux_none_diverges fuel [] _⟩

/-!
## Scope exit of `StreamableResponse` and `ChunkedBytesStream` (claim C9)

`StreamableResponse.__aexit__` (streamed_response.py:107-109) awaits
`ready()` (a no-op on a ready instance) and then exits the *transport
response* (`await self.response.__aexit__(...)`), releasing it.  It never
touches `self.stream`.  The drain-on-close behaviour lives only in
`ChunkedBytesStream.__aexit__` (chunked_stream.py:55-58), which exits the
response and then iterates *itself* to exhaustion — and that method is
not invoked anywhere on the `StreamableResponse` exit path.
-/

/-- Observable actions during a scope exit. -/
inductive ExitAction (ε : Type) where
  | respExit : ExitAction ε
  | readChunk (c : List Char) : ExitAction ε
deriving DecidableEq

/-- State of a ready `StreamableResponse`: its stream's pending transport
events, the accumulation buffer, and whether the transport response's
scope has been exited. -/
structure SRState (ε : Type) where
  transport : List (RawRead ε)
  buffer : List Char
  respExited : Bool
deriving DecidableEq

/-- `StreamableResponse.__aexit__` on a ready instance: exit the
response's own scope; the stream attribute is not consulted. -/
def srAexit {ε : Type} (s : SRState ε) : SRState ε × List (ExitAction ε) :=
  ({ s with respExited := true }, [.respExit])

/-- The `async for unused in self` drain loop of
`ChunkedBytesStream.__aexit__`: iterate `__anext__` until the transport
is exhausted (`StopAsyncIteration`); an error raised mid-drain escapes
the loop.  The fuel is the number of pending events, one per
iteration. -/
def cbsDrainAux {ε : Type} :
    Nat → List (RawRead ε) → List (ExitAction ε) × List (RawRead ε)
  | 0, tr => ([], tr)
  | fuel + 1, tr =>
    match tr with
    | [] => ([], [])
    | _ :: _ =>
      match chunkNext tr with
      | (.error _, tr') => ([], tr')
      | (.ok c, tr') =>
        let p := cbsDrainAux fuel tr'
        (.readChunk c :: p.1, p.2)

/-- `ChunkedBytesStream.__aexit__` (chunked_stream.py:55-58): exit the
response, then drain the remaining chunks by iterating itself. -/
def cbsAexit {ε : Type} (tr : List (RawRead ε)) :
    List (ExitAction ε) × List (RawRead ε) :=
  let p := cbsDrainAux tr.length tr
  (.respExit :: p.1, p.2)

theorem cbsDrainAux_pure {ε : Type} :
    ∀ (chunks : List (List Char)),
      cbsDrainAux (ε := ε) chunks.length (pureTransport chunks) =
        (chunks.map ExitAction.readChunk, [])
  | [] => by simp [cbsDrainAux, pureTransport]
  | c :: cs => by
    have hnext : chunkNext (ε := ε) (pureTransport (c :: cs)) =
        (.ok c, pureTransport cs) := by
      simp [chunkNext, chunkNextAux, pureTransport]
    have ih := cbsDrainAux_pure (ε := ε) cs
    simp only [pureTransport, List.map_cons] at hnext ih ⊢
    simp only [List.length_cons]
    simp [cbsDrainAux, hnext, ih]

/-- C9, as stated, is false on the code: exiting the scope of a
`StreamableResponse` whose stream still has one unread chunk pending
releases the response but performs no stream read — the pending chunk is
still there after the exit completes, so the stream was not iterated to
exhaustion.  (`StreamableResponse.__aexit__` exits `self.response`
directly and never invokes `ChunkedBytesStream.__aexit__`, where the
drain lives.) -/
theorem c9_counterexample :
    srAexit (⟨[RawRead.part "x".toList true], [], false⟩ : SRState (List Char)) =
      (⟨[RawRead.part "x".toList true], [], true⟩, [.respExit]) ∧
    (srAexit (⟨[RawRead.part "x".toList true], [], false⟩ :
        SRState (List Char))).1.transport ≠ [] := by
  exact ⟨by decide, by decide⟩

/-- C9 (amended): exiting the scope of a `StreamableResponse` releases
the transport response but does not drain: no stream read is performed
and the stream state (pending transport events and accumulation buffer)
is unchanged.  The drain-on-close behaviour exists only in
`ChunkedBytesStream`'s own scope exit, which — after exiting the
response — iterates itself to exhaustion, reading every remaining chunk
of a failure-free transport. -/
theorem c9_exit_releases_without_draining {ε : Type} (s : SRState ε) :
    ((srAexit s).1.transport = s.transport ∧
      (srAexit s).1.buffer = s.buffer ∧
      (srAexit s).1.respExited = true ∧
      ∀ c : List Char, ExitAction.readChunk c ∉ (srAexit s).2) ∧
    ∀ chunks : List (List Char),
      (cbsAexit (pureTransport (ε := ε) chunks)).2 = [] ∧
      (cbsAexit (pureTransport (ε := ε) chunks)).1 =
        .respExit :: chunks.map ExitAction.readChunk := by
  constructor
  · refine ⟨rfl, rfl, rfl, fun c => ?_⟩
    simp [srAexit]
  · intro chunks
    have h := cbsDrainAux_pure (ε := ε) chunks
    have hlen : (pureTransport (ε := ε) chunks).length = chunks.length := by
      simp [pureTransport]
    constructor
    · simp [cbsAexit, hlen, h]
    · simp [cbsAexit, hlen, h]
